import Mathlib

/-!
Shallow embedding of `get_papers_list.py` (the PubMed paper
extraction-and-classification pipeline) and proofs about its
specification claims.

Python strings are modelled as `List Char`; the loosely structured
values produced by `Entrez.read` (strings, lists, dict-like mappings)
are modelled by the inductive type `Val`.  Fallible Python operations
(attribute errors on `.get`, `.split` of a non-string, `str.join` over
non-strings) return `Except Unit`; an uncaught exception is `.error ()`.
`str.lower` is modelled per character with `Char.toLower` (the keyword
sets are ASCII), and `str.strip`/`str.split` with the corresponding
whitespace predicates.
-/

namespace GetPapers

/-- Python-style strings. -/
abbrev Str := List Char

/-- Values of the shapes `Entrez.read` produces: strings, lists, dicts. -/
inductive Val where
  | s : Str → Val
  | l : List Val → Val
  | d : List (Str × Val) → Val
deriving Repr

/-- Prefix test on character lists (needle against hay). -/
def isPrefL : Str → Str → Bool
  | [], _ => true
  | _ :: _, [] => false
  | a :: as, b :: bs => a == b && isPrefL as bs

/-- Python `needle in hay` for strings: substring containment. -/
def strContains (hay needle : Str) : Bool :=
  match hay with
  | [] => needle.isEmpty
  | c :: t => isPrefL needle (c :: t) || strContains t needle

/-- Python `str.lower`, per character (the keyword sets are ASCII). -/
def lowerStr (cs : Str) : Str := cs.map Char.toLower

/-- Split on every character satisfying `p`, keeping empty fields. -/
def splitOnPredKeep (p : Char → Bool) : Str → List Str
  | [] => [[]]
  | c :: rest =>
    match splitOnPredKeep p rest with
    | [] => [[]]
    | t :: ts => if p c then [] :: t :: ts else (c :: t) :: ts

/-- Python `str.split(sep)` for a one-character separator. -/
def splitOnChar (sep : Char) (cs : Str) : List Str :=
  splitOnPredKeep (fun c => c == sep) cs

/-- Python `str.split()` with no argument: whitespace runs, no empty tokens. -/
def splitWs (cs : Str) : List Str :=
  (splitOnPredKeep Char.isWhitespace cs).filter (fun t => !t.isEmpty)

/-- Strip characters satisfying `p` from both ends. -/
def stripBoth (p : Char → Bool) (cs : Str) : Str :=
  ((cs.dropWhile p).reverse.dropWhile p).reverse

/-- Python `str.strip()`. -/
def stripWs (cs : Str) : Str := stripBoth Char.isWhitespace cs

/-- The punctuation set of line 184, `strip('().,;')`. -/
def PUNCT : Str := ['(', ')', '.', ',', ';']

/-- Python `word.strip('().,;')` (line 184). -/
def stripPunct (cs : Str) : Str := stripBoth (fun c => PUNCT.contains c) cs

/-- Python `str.strip('-')` (line 145). -/
def stripDash (cs : Str) : Str := stripBoth (fun c => c == '-') cs

/-- Python `sep.join(xs)` over strings. -/
def joinSep (sep : Str) : List Str → Str
  | [] => []
  | [x] => x
  | x :: y :: rest => x ++ sep ++ joinSep sep (y :: rest)

/-- Lines 17-21: keywords that identify pharmaceutical/biotech companies. -/
def COMPANY_KEYWORDS : List Str :=
  ["inc".toList, "ltd".toList, "llc".toList, "corp".toList,
   "corporation".toList, "pharma".toList, "pharmaceuticals".toList,
   "biotech".toList, "therapeutics".toList, "diagnostics".toList,
   "biosciences".toList, "gmbh".toList, "ag".toList, "bv".toList,
   "s.a.".toList, "s.l.".toList, "s.r.l.".toList]

/-- Line 23: domains often associated with academic institutions. -/
def ACADEMIC_DOMAINS : List Str := [".edu".toList, ".ac.".toList, ".org".toList]

/-- Python truthiness of an optional string (`if email:`). -/
def optTruthy : Option Str → Bool
  | some cs => !cs.isEmpty
  | none => false

/-- Lines 104-105 and 114-115: `affiliation.split(',')[0].strip()`. -/
def firstCommaField (affiliation : Str) : Str :=
  stripWs ((splitOnChar ',' affiliation).headD [])

/-- Lines 92-124: `is_non_academic(affiliation, email)`.  Heuristic 1 scans
the company keywords against the lower-cased affiliation; heuristic 2, for a
truthy email whose lower-casing matches no academic domain marker, re-tests
the very same keyword predicate. -/
def is_non_academic (affiliation : Str) (email : Option Str) : Bool × Option Str :=
  let affiliation_lower := if affiliation.isEmpty then [] else lowerStr affiliation
  let email_lower := match email with
    | some e => if e.isEmpty then [] else lowerStr e
    | none => []
  if COMPANY_KEYWORDS.any (fun k => strContains affiliation_lower k) then
    (true, some (firstCommaField affiliation))
  else if optTruthy email then
    if !(ACADEMIC_DOMAINS.any (fun dm => strContains email_lower dm)) then
      if COMPANY_KEYWORDS.any (fun k => strContains affiliation_lower k) then
        (true, some (firstCommaField affiliation))
      else (false, none)
    else (false, none)
  else (false, none)

/-- Modelled from the spec's words (§4.1 step 1, §8): the one-test reference
classifier, which ignores the email: non-academic exactly when the
lower-cased affiliation contains some company keyword, and then the guess is
the text before the first comma of the original-case affiliation, trimmed. -/
def classify_spec (affiliation : Str) : Bool × Option Str :=
  if COMPANY_KEYWORDS.any (fun k => strContains (lowerStr affiliation) k) then
    (true, some (firstCommaField affiliation))
  else (false, none)

/-- C2 (claim): `is_non_academic` is extensionally the one-test reference
classifier `classify_spec`: the email argument never changes the verdict,
because heuristic 2 re-tests the keyword predicate heuristic 1 already
failed; the guess is the before-first-comma trimmed original-case text. -/
theorem is_non_academic_eq_classify_spec (affiliation : Str) (email : Option Str) :
    is_non_academic affiliation email = classify_spec affiliation := by
  unfold is_non_academic classify_spec
  have hlow : (if affiliation.isEmpty then [] else lowerStr affiliation)
      = lowerStr affiliation := by
    cases affiliation <;> simp [lowerStr]
  rw [hlow]
  by_cases h : COMPANY_KEYWORDS.any (fun k => strContains (lowerStr affiliation) k)
  · simp [h]
  · simp only [h, if_false, Bool.false_eq_true]
    cases email with
    | none => simp [optTruthy]
    | some e =>
      by_cases ht : optTruthy (some e) = true
      · simp [ht, h]
      · simp [Bool.not_eq_true] at ht
        simp [ht]

/-! Dict-like value operations. -/

/-- First-match association lookup with a default (`dict.get(k, dflt)` on a
dict value). -/
def lookupD (kvs : List (Str × Val)) (k : Str) (dflt : Val) : Val :=
  match kvs.find? (fun kv => kv.1 == k) with
  | some kv => kv.2
  | none => dflt

/-- Python `v.get(k, dflt)`: an AttributeError unless `v` is a dict. -/
def pyGet (v : Val) (k : Str) (dflt : Val) : Except Unit Val :=
  match v with
  | .d kvs => .ok (lookupD kvs k dflt)
  | _ => .error ()

/-- Lines 148-149 and 166: `if not isinstance(x, list): x = [x]`. -/
def pyEnsureList : Val → List Val
  | .l vs => vs
  | v => [v]

/-- Python `'@' in v` over the value grammar: substring test on a str, key
test on a dict, element equality on a list. -/
def pyHasAt : Val → Bool
  | .s cs => strContains cs ['@']
  | .l vs => vs.any (fun v => match v with | .s cs => cs == ['@'] | _ => false)
  | .d kvs => kvs.any (fun kv => kv.1 == ['@'])

/-- Python string-method access (`.split()`, joining): an AttributeError or
TypeError unless the value is a str. -/
def asStr : Val → Except Unit Str
  | .s cs => .ok cs
  | _ => .error ()

/-- Escaping inside Python `repr` of a string (quote choice `q`). -/
def pyEscape (q : Char) : Str → Str
  | [] => []
  | c :: cs =>
    (if c == '\\' then ['\\', '\\']
     else if c == q then ['\\', q]
     else if c == '\n' then ['\\', 'n']
     else if c == '\t' then ['\\', 't']
     else if c == '\r' then ['\\', 'r']
     else [c]) ++ pyEscape q cs

/-- Python `repr` of a string: single quotes unless the text holds a single
quote and no double quote (common escapes modelled; `\xNN` hexing of other
non-printables is not, no claim touches it). -/
def pyReprStr (cs : Str) : Str :=
  let q : Char := if cs.contains '\'' && !cs.contains '"' then '"' else '\''
  q :: (pyEscape q cs ++ [q])

mutual

/-- Python `repr` over the value grammar (container `str` = container `repr`). -/
def pyRepr : Val → Str
  | .s cs => pyReprStr cs
  | .l vs => Char.ofNat 91 :: (joinSep (", ".toList) (pyReprL vs) ++ [Char.ofNat 93])
  | .d kvs => Char.ofNat 123 :: (joinSep (", ".toList) (pyReprD kvs) ++ [Char.ofNat 125])

/-- Element representations of a list value. -/
def pyReprL : List Val → List Str
  | [] => []
  | v :: vs => pyRepr v :: pyReprL vs

/-- Entry representations of a dict value. -/
def pyReprD : List (Str × Val) → List Str
  | [] => []
  | (k, v) :: kvs => (pyReprStr k ++ ':' :: ' ' :: pyRepr v) :: pyReprD kvs

end

/-- Python `str(v)` as an f-string applies it: the text itself for a str,
`repr` text for containers. -/
def pyStr : Val → Str
  | .s cs => cs
  | .l vs => pyRepr (.l vs)
  | .d kvs => pyRepr (.d kvs)

/-! The per-author affiliation/email loop (lines 157-202). -/

/-- Accumulator of the author loop (lines 151-153 and 155). -/
structure LoopSt where
  nonAcad : List Str
  companies : List Str
  corrEmail : Option Str
  has : Bool
deriving Repr, DecidableEq

/-- The loop's initial accumulator. -/
def initLoopSt : LoopSt := ⟨[], [], none, false⟩

/-- Lines 178-185: scanning one affiliation text for an email token.  The
assignment `author_email = word.strip('().,;')` of line 184 runs whenever
this entry's text holds an `@`, overwriting any earlier value. -/
def affilEmailStep (affil_text : Val) (em : Option Str) : Except Unit (Option Str) :=
  if pyHasAt affil_text then
    match asStr affil_text with
    | .error e => .error e
    | .ok cs =>
      match (splitWs cs).find? (fun w => strContains w ['@']) with
      | some w => .ok (some (stripPunct w))
      | none => .ok em
  else .ok em

/-- Lines 173-185: the loop over `affiliation_info`, collecting the raw
`Affiliation` values and the email token state. -/
def affilLoop : List Val → Option Str → Except Unit (List Val × Option Str)
  | [], em => .ok ([], em)
  | affil :: rest, em =>
    match affil with
    | .d kvs =>
      let affil_text := lookupD kvs "Affiliation".toList (Val.s [])
      match affilEmailStep affil_text em with
      | .error e => .error e
      | .ok em2 =>
        match affilLoop rest em2 with
        | .error e => .error e
        | .ok (ts, emf) => .ok (affil_text :: ts, emf)
    | _ => affilLoop rest em

/-- Python `"; ".join(xs)` over values: a TypeError unless every element is
a str (line 186). -/
def pyJoinVals (sep : Str) (vs : List Val) : Except Unit Str :=
  match vs.mapM asStr with
  | .error e => .error e
  | .ok ss => .ok (joinSep sep ss)

/-- Lines 161-186: one author dict normalized to
(name, affiliation text, email). -/
def authorExtract (kvs : List (Str × Val)) : Except Unit (Str × Str × Option Str) :=
  let last_name := lookupD kvs "LastName".toList (Val.s [])
  let fore_name := lookupD kvs "ForeName".toList (Val.s [])
  let author_name := stripWs (pyStr fore_name ++ ' ' :: pyStr last_name)
  let affiliation_info := pyEnsureList (lookupD kvs "AffiliationInfo".toList (Val.l []))
  if affiliation_info.isEmpty then .ok (author_name, [], none)
  else
    match affilLoop affiliation_info none with
    | .error e => .error e
    | .ok (ts, em) =>
      match pyJoinVals "; ".toList ts with
      | .error e => .error e
      | .ok aff => .ok (author_name, aff, em)

/-- Lines 190-202: classify one author and update the accumulator: append
the name and (deduplicated, truthy) company guess when non-academic, and
take the first truthy email as the corresponding email. -/
def applyAuthor (st : LoopSt) (author_name author_affiliation : Str)
    (author_email : Option Str) : LoopSt :=
  let r := is_non_academic author_affiliation author_email
  let st1 :=
    if r.1 then
      { st with
        has := true
        nonAcad := st.nonAcad ++ [author_name]
        companies :=
          match r.2 with
          | some c =>
            if !c.isEmpty && !st.companies.contains c then st.companies ++ [c]
            else st.companies
          | none => st.companies }
    else st
  if optTruthy author_email && !optTruthy st1.corrEmail then
    { st1 with corrEmail := author_email }
  else st1

/-- Lines 157-202: the body of `for author in authors` for one entry; a
non-mapping entry is skipped (line 159). -/
def stepAuthor (st : LoopSt) (author : Val) : Except Unit LoopSt :=
  match author with
  | .d kvs =>
    match authorExtract kvs with
    | .error e => .error e
    | .ok (nm, aff, em) => .ok (applyAuthor st nm aff em)
  | _ => .ok st

/-- The author loop over the whole (coerced) author list. -/
def authLoop : List Val → LoopSt → Except Unit LoopSt
  | [], st => .ok st
  | a :: as, st =>
    match stepAuthor st a with
    | .error e => .error e
    | .ok st2 => authLoop as st2

/-- Line 145: `f"{pub_year}-{pub_month}-{pub_day}".strip('-')`. -/
def formatDate (y m d : Str) : Str := stripDash (y ++ '-' :: m ++ '-' :: d)

/-- The defensively extracted per-paper fields (lines 133-149). -/
structure PaperFields where
  pmid : Val
  title : Val
  pubdate : Str
  authors : List Val
deriving Repr

/-- Lines 133-149: field extraction of the try block, in source order; each
`.get` raises when its receiver is not a dict. -/
def paperMeta (paper : Val) : Except Unit PaperFields := do
  let medline_citation ← pyGet paper "MedlineCitation".toList (Val.d [])
  let article ← pyGet medline_citation "Article".toList (Val.d [])
  let pubmed_data ← pyGet paper "PubmedData".toList (Val.d [])
  let _article_id_list ← pyGet pubmed_data "ArticleIdList".toList (Val.d [])
  let pmid ← pyGet medline_citation "PMID".toList (Val.s [])
  let title ← pyGet article "ArticleTitle".toList (Val.s [])
  let journal ← pyGet article "Journal".toList (Val.d [])
  let journal_issue ← pyGet journal "JournalIssue".toList (Val.d [])
  let pub_date_info ← pyGet journal_issue "PubDate".toList (Val.d [])
  let pub_year ← pyGet pub_date_info "Year".toList (Val.s [])
  let pub_month ← pyGet pub_date_info "Month".toList (Val.s [])
  let pub_day ← pyGet pub_date_info "Day".toList (Val.s [])
  let publication_date := formatDate (pyStr pub_year) (pyStr pub_month) (pyStr pub_day)
  let authorsV ← pyGet article "AuthorList".toList (Val.l [])
  pure ⟨pmid, title, publication_date, pyEnsureList authorsV⟩

/-- The whole state the try block computes for one paper. -/
structure PaperSt where
  fields : PaperFields
  st : LoopSt
deriving Repr

/-- Lines 133-202: field extraction followed by the author loop. -/
def paperState (paper : Val) : Except Unit PaperSt :=
  match paperMeta paper with
  | .error e => .error e
  | .ok f =>
    match authLoop f.authors initLoopSt with
    | .error e => .error e
    | .ok st => .ok ⟨f, st⟩

/-- One output record (lines 207-214), fields joined as the code joins them. -/
structure Row where
  pubMedID : Val
  title : Val
  publicationDate : Str
  nonAcademicAuthors : Str
  companyAffiliations : Str
  correspondingEmail : Str
deriving Repr

/-- The literal fallback string of line 213. -/
def NA_STR : Str := "N/A".toList

/-- Lines 207-214: the appended result row;
`corresponding_author_email or "N/A"` falls back on a falsy email. -/
def mkRow (ps : PaperSt) : Row :=
  { pubMedID := ps.fields.pmid
    title := ps.fields.title
    publicationDate := ps.fields.pubdate
    nonAcademicAuthors := joinSep "; ".toList ps.st.nonAcad
    companyAffiliations := joinSep "; ".toList ps.st.companies
    correspondingEmail :=
      match ps.st.corrEmail with
      | some e => if e.isEmpty then NA_STR else e
      | none => NA_STR }

/-- Lines 132-214: the try block for one paper: a row exactly when at least
one author was flagged non-academic (line 206). -/
def tryPaper (paper : Val) : Except Unit (Option Row) :=
  match paperState paper with
  | .error e => .error e
  | .ok ps => .ok (if ps.st.has then some (mkRow ps) else none)

/-- Line 217: the except handler's own accesses,
`paper.get('MedlineCitation', {}).get('PMID', 'UNKNOWN')`, which can
themselves raise. -/
def exceptHandler (paper : Val) : Except Unit Val :=
  match pyGet paper "MedlineCitation".toList (Val.d []) with
  | .error e => .error e
  | .ok m => pyGet m "PMID".toList (Val.s "UNKNOWN".toList)

/-- Lines 132-220: one iteration of the paper loop; a try-block exception
runs the handler, and an exception of the handler itself propagates. -/
def processOnePaper (paper : Val) : Except Unit (Option Row) :=
  match tryPaper paper with
  | .ok r => .ok r
  | .error _ =>
    match exceptHandler paper with
    | .error e => .error e
    | .ok _ => .ok none

/-- Lines 127-224: `process_papers`; an escaping exception aborts the run. -/
def process_papers : List Val → Except Unit (List Row)
  | [] => .ok []
  | p :: ps =>
    match processOnePaper p with
    | .error e => .error e
    | .ok r =>
      match process_papers ps with
      | .error e => .error e
      | .ok rest => .ok (match r with | some row => row :: rest | none => rest)

/-! Batched retrieval (lines 63-89). -/

/-- The slices `pmids[i:i+100]` for `i in range(0, len(pmids), 100)`. -/
def chunks100 : List Str → List (List Str)
  | [] => []
  | p :: ps => ((p :: ps).take 100) :: chunks100 ((p :: ps).drop 100)
termination_by l => l.length
decreasing_by simp [List.length_drop]; omega

/-- Lines 73-87: one chunk's try block, with the fetch call abstracted as an
oracle; any failure contributes zero records for the chunk. -/
def chunkFetchResult (fetch : List Str → Except Unit Val) (batch : List Str) : List Val :=
  match fetch batch with
  | .error _ => []
  | .ok records =>
    match pyGet records "PubmedArticle".toList (Val.l []) with
    | .error _ => []
    | .ok articles => pyEnsureList articles

/-- Lines 71-87: the batch loop in chunk order. -/
def fetchLoop (fetch : List Str → Except Unit Val) : List Str → List Val
  | [] => []
  | p :: ps =>
    chunkFetchResult fetch ((p :: ps).take 100) ++ fetchLoop fetch ((p :: ps).drop 100)
termination_by l => l.length
decreasing_by simp [List.length_drop]; omega

/-- Lines 63-89: `fetch_paper_details` over the fetch oracle. -/
def fetch_paper_details (fetch : List Str → Except Unit Val) (pmids : List Str) : List Val :=
  if pmids.isEmpty then [] else fetchLoop fetch pmids

/-! Claim-side total projections, for stating the specification claims. -/

/-- The email token the extraction assigns from one affiliation-info entry,
when it assigns one (total projection of `affilEmailStep`). -/
def emailOfInfo (v : Val) : Option Str :=
  match v with
  | .d kvs =>
    match lookupD kvs "Affiliation".toList (Val.s []) with
    | .s cs =>
      if strContains cs ['@'] then
        match (splitWs cs).find? (fun w => strContains w ['@']) with
        | some w => some (stripPunct w)
        | none => none
      else none
    | _ => none
  | _ => none

/-- The email `stepAuthor` extracts for one author entry. -/
def authorEmail (a : Val) : Except Unit (Option Str) :=
  match a with
  | .d kvs =>
    match authorExtract kvs with
    | .error e => .error e
    | .ok (_, _, em) => .ok em
  | _ => .ok none

/-- Total version of `authorEmail`: no email on an extraction error. -/
def authorEmailTot (a : Val) : Option Str :=
  match authorEmail a with
  | .ok em => em
  | .error _ => none

/-- Whether `is_non_academic` flags this author entry. -/
def authorNA (a : Val) : Except Unit Bool :=
  match a with
  | .d kvs =>
    match authorExtract kvs with
    | .error e => .error e
    | .ok (_, aff, em) => .ok (is_non_academic aff em).1
  | _ => .ok false

/-- The organization guess of a non-academic author entry (total). -/
def guessTot (a : Val) : Option Str :=
  match a with
  | .d kvs =>
    match authorExtract kvs with
    | .ok (_, aff, em) =>
      let r := is_non_academic aff em
      if r.1 then r.2 else none
    | .error _ => none
  | _ => none

/-- Spec §4.3: the first non-empty email over the authors in list order. -/
def firstNonemptyEmail : List Val → Option Str
  | [] => none
  | a :: as =>
    match authorEmailTot a with
    | some e => if e.isEmpty then firstNonemptyEmail as else some e
    | none => firstNonemptyEmail as

/-- Spec §3: first-seen-order deduplication of a list of strings. -/
def firstSeenDedup (xs : List Str) : List Str :=
  xs.foldl (fun acc x => if acc.contains x then acc else acc ++ [x]) []

/-- The summary a paper contributes when its processing does not abort. -/
def okSummary (p : Val) : Option Row :=
  match processOnePaper p with
  | .ok r => r
  | .error _ => none

/-! General helper lemmas. -/

theorem contains_iff_mem_str (l : List Str) (x : Str) :
    l.contains x = true ↔ x ∈ l := List.elem_iff

theorem mem_dropWhile_of_not {p : Char → Bool} {c : Char} {l : Str}
    (hc : p c = false) (hm : c ∈ l) : c ∈ l.dropWhile p := by
  induction l with
  | nil => cases hm
  | cons a t ih =>
    rw [List.dropWhile_cons]
    by_cases ha : p a = true
    · simp only [ha, if_true]
      rcases List.mem_cons.mp hm with h | h
      · exact absurd (h ▸ ha) (by simp [hc])
      · exact ih h
    · simp only [ha, if_false]
      exact hm

theorem mem_stripBoth_of_not {p : Char → Bool} {c : Char} {l : Str}
    (hc : p c = false) (hm : c ∈ l) : c ∈ stripBoth p l := by
  unfold stripBoth
  exact List.mem_reverse.mpr
    (mem_dropWhile_of_not hc (List.mem_reverse.mpr (mem_dropWhile_of_not hc hm)))

theorem at_mem_stripPunct {w : Str} (hm : '@' ∈ w) : '@' ∈ stripPunct w :=
  mem_stripBoth_of_not (by decide) hm

theorem strContains_mem {hay : Str} {c : Char}
    (h : strContains hay [c] = true) : c ∈ hay := by
  induction hay with
  | nil => simp [strContains] at h
  | cons a t ih =>
    rw [strContains] at h
    rcases Bool.or_eq_true_iff.mp h with h1 | h1
    · simp only [isPrefL, Bool.and_eq_true] at h1
      exact List.mem_cons.mpr (Or.inl (beq_iff_eq.mp h1.1))
    · exact List.mem_cons.mpr (Or.inr (ih h1))

/-! Claim C6: batching in `fetch_paper_details`. -/

theorem chunks100_length (l : List Str) :
    (chunks100 l).length = (l.length + 99) / 100 := by
  induction l using chunks100.induct with
  | case1 => simp [chunks100]
  | case2 p ps ih =>
    rw [chunks100]
    simp only [List.length_cons, ih, List.length_drop]
    omega

theorem chunks100_le (l : List Str) : ∀ c ∈ chunks100 l, c.length ≤ 100 := by
  induction l using chunks100.induct with
  | case1 => intro c hc; simp [chunks100] at hc
  | case2 p ps ih =>
    intro c hc
    rw [chunks100] at hc
    rcases List.mem_cons.mp hc with h | h
    · subst h; simp only [List.length_take]; omega
    · exact ih c h

theorem chunks100_join (l : List Str) : (chunks100 l).flatten = l := by
  induction l using chunks100.induct with
  | case1 => simp [chunks100]
  | case2 p ps ih =>
    rw [chunks100]
    simp only [List.flatten_cons, ih]
    exact List.take_append_drop 100 (p :: ps)

theorem fetchLoop_eq_flatMap (fetch : List Str → Except Unit Val) (l : List Str) :
    fetchLoop fetch l = (chunks100 l).flatMap (chunkFetchResult fetch) := by
  induction l using chunks100.induct with
  | case1 => simp [fetchLoop, chunks100]
  | case2 p ps ih =>
    rw [fetchLoop, chunks100]
    simp only [List.flatMap_cons, ih]

/-- C6 (claim): `fetch_paper_details` partitions the identifiers into
`ceil(N/100)` chunks of at most 100, fetched in chunk order; a chunk whose
fetch fails contributes zero records while every other chunk's records are
still returned, in chunk order. -/
theorem c6_batching (fetch : List Str → Except Unit Val) (pmids : List Str) :
    fetch_paper_details fetch pmids = (chunks100 pmids).flatMap (chunkFetchResult fetch)
    ∧ (chunks100 pmids).length = (pmids.length + 99) / 100
    ∧ (∀ c ∈ chunks100 pmids, c.length ≤ 100)
    ∧ (chunks100 pmids).flatten = pmids
    ∧ (∀ batch, fetch batch = .error () → chunkFetchResult fetch batch = []) := by
  refine ⟨?_, chunks100_length pmids, chunks100_le pmids, chunks100_join pmids, ?_⟩
  · unfold fetch_paper_details
    by_cases h : pmids.isEmpty
    · rw [if_pos h]
      rw [List.isEmpty_iff] at h
      subst h
      simp [chunks100]
    · rw [if_neg h]
      exact fetchLoop_eq_flatMap fetch pmids
  · intro batch hb
    simp [chunkFetchResult, hb]

/-- Witness for C6, at 250 identifiers whose middle chunk's fetch fails
(with this oracle the first two chunks, of 100 identifiers each, fail): the
last chunk's records are still returned. -/
theorem c6_batching_witness :
    fetch_paper_details
        (fun b => if b.length = 100 then .error ()
                  else .ok (Val.d [("PubmedArticle".toList, Val.l [Val.s ['r']])]))
        (List.replicate 250 ['x'])
      = (chunks100 (List.replicate 250 ['x'])).flatMap
          (chunkFetchResult
            (fun b => if b.length = 100 then .error ()
                      else .ok (Val.d [("PubmedArticle".toList, Val.l [Val.s ['r']])])))
    ∧ chunkFetchResult
        (fun b => if b.length = 100 then .error ()
                  else .ok (Val.d [("PubmedArticle".toList, Val.l [Val.s ['r']])]))
        (List.replicate 100 ['x']) = [] := by
  refine ⟨(c6_batching _ _).1, (c6_batching _ (List.replicate 250 ['x'])).2.2.2.2 _ ?_⟩
  simp

/-! Claim C10: order preservation and one row per record. -/

/-- C10 (claim): when `process_papers` returns, each input record
contributes at most one summary and the summaries keep the input order. -/
theorem c10_order (ps : List Val) (rs : List Row)
    (h : process_papers ps = .ok rs) : rs = ps.filterMap okSummary := by
  induction ps generalizing rs with
  | nil =>
    simp only [process_papers, Except.ok.injEq] at h
    simp [← h]
  | cons p ps ih =>
    rw [process_papers] at h
    cases h1 : processOnePaper p with
    | error e => rw [h1] at h; cases h
    | ok r =>
      rw [h1] at h
      cases h2 : process_papers ps with
      | error e => rw [h2] at h; cases h
      | ok rest =>
        rw [h2] at h
        simp only [Except.ok.injEq] at h
        rw [List.filterMap_cons]
        have hok : okSummary p = r := by simp [okSummary, h1]
        rw [hok, ← ih rest h2]
        cases r <;> simp_all

/-! Concrete sample records used by witnesses and counterexamples. -/

/-- Sample author affiliated with a company (spec §8, Scenario 1's text). -/
def authGen : Val :=
  Val.d [("LastName".toList, Val.s "Smith".toList),
         ("ForeName".toList, Val.s "Ann".toList),
         ("AffiliationInfo".toList,
          Val.l [Val.d [("Affiliation".toList,
                         Val.s "Genentech Inc, South San Francisco, CA".toList)]])]

/-- Sample author whose `Affiliation` value is a (non-str) list: joining the
affiliation texts raises a TypeError. -/
def authRaise : Val :=
  Val.d [("AffiliationInfo".toList,
          Val.l [Val.d [("Affiliation".toList, Val.l [])]])]

/-- Sample author whose affiliation `",inc"` is flagged non-academic with an
empty organization guess. -/
def authEmptyGuess : Val :=
  Val.d [("LastName".toList, Val.s "Li".toList),
         ("AffiliationInfo".toList,
          Val.l [Val.d [("Affiliation".toList, Val.s ",inc".toList)]])]

/-- Sample paper: PMID 1, title T, a year and a day but no month, and the
given `AuthorList` value. -/
def samplePaper (authors : Val) : Val :=
  Val.d [("MedlineCitation".toList,
          Val.d [("PMID".toList, Val.s ['1']),
                 ("Article".toList,
                  Val.d [("ArticleTitle".toList, Val.s ['T']),
                         ("Journal".toList,
                          Val.d [("JournalIssue".toList,
                                  Val.d [("PubDate".toList,
                                          Val.d [("Year".toList, Val.s "2020".toList),
                                                 ("Day".toList, Val.s "05".toList)])])]),
                         ("AuthorList".toList, authors)])])]

/-- The row the sample company paper produces. -/
def rowGen : Row :=
  { pubMedID := Val.s ['1']
    title := Val.s ['T']
    publicationDate := "2020--05".toList
    nonAcademicAuthors := "Ann Smith".toList
    companyAffiliations := "Genentech Inc".toList
    correspondingEmail := "N/A".toList }

/-- Witness for C10 at a concrete one-record list. -/
theorem c10_order_witness :
    [rowGen] = List.filterMap okSummary [samplePaper (Val.l [authGen])] :=
  c10_order [samplePaper (Val.l [authGen])] [rowGen] rfl

/-! Claim C9: singleton-or-list tolerance. -/

/-- C9 (claim): a non-mapping entry of the author list (a string or a list)
is skipped without error and without changing the accumulator; an author
list given as a single mapping is coerced to a one-element list, producing
exactly one normalized author; an `AffiliationInfo` field given as a single
mapping is processed exactly as its one-element-list coercion. -/
theorem c9_singleton_tolerance (st : LoopSt) (cs : Str) (vs rest : List Val)
    (kvs akvs : List (Str × Val)) (fn ln : Str) :
    authLoop (Val.s cs :: rest) st = authLoop rest st
    ∧ authLoop (Val.l vs :: rest) st = authLoop rest st
    ∧ pyEnsureList (Val.d kvs) = [Val.d kvs]
    ∧ (pyEnsureList (Val.d kvs)).length = 1
    ∧ stepAuthor st (Val.d [("ForeName".toList, Val.s fn),
                            ("LastName".toList, Val.s ln),
                            ("AffiliationInfo".toList, Val.d akvs)])
        = stepAuthor st (Val.d [("ForeName".toList, Val.s fn),
                                ("LastName".toList, Val.s ln),
                                ("AffiliationInfo".toList, Val.l [Val.d akvs])]) :=
  ⟨rfl, rfl, rfl, rfl, rfl⟩

/-! Invariants of the author loop. -/

theorem applyAuthor_has (st : LoopSt) (nm aff : Str) (em : Option Str) :
    (applyAuthor st nm aff em).has = ((is_non_academic aff em).1 || st.has) := by
  unfold applyAuthor
  cases h : (is_non_academic aff em).1 <;>
    cases h1 : optTruthy em <;>
      cases h2 : optTruthy st.corrEmail <;>
        simp [h, h1, h2]

theorem applyAuthor_corrEmail (st : LoopSt) (nm aff : Str) (em : Option Str) :
    (applyAuthor st nm aff em).corrEmail =
      (if optTruthy em && !optTruthy st.corrEmail then em else st.corrEmail) := by
  unfold applyAuthor
  cases h : (is_non_academic aff em).1 <;>
    cases h1 : optTruthy em <;>
      cases h2 : optTruthy st.corrEmail <;>
        simp [h, h1, h2]

theorem applyAuthor_companies (st : LoopSt) (nm aff : Str) (em : Option Str) :
    (applyAuthor st nm aff em).companies =
      (match (if (is_non_academic aff em).1 then (is_non_academic aff em).2 else none) with
       | some c => if !c.isEmpty && !st.companies.contains c
                   then st.companies ++ [c] else st.companies
       | none => st.companies) := by
  unfold applyAuthor
  cases h : (is_non_academic aff em).1 <;>
    cases h1 : optTruthy em <;>
      cases h2 : optTruthy st.corrEmail <;>
        simp [h, h1, h2]

theorem stepAuthor_dict_ok {st st2 : LoopSt} {kvs : List (Str × Val)}
    (h : stepAuthor st (.d kvs) = .ok st2) :
    ∃ nm aff em, authorExtract kvs = .ok (nm, aff, em) ∧ st2 = applyAuthor st nm aff em := by
  cases he : authorExtract kvs with
  | error e => simp [stepAuthor, he] at h
  | ok t =>
    obtain ⟨nm, aff, em⟩ := t
    simp only [stepAuthor, he] at h
    exact ⟨nm, aff, em, rfl, (Except.ok.inj h).symm⟩

theorem authorEmailTot_of_extract {kvs : List (Str × Val)} {nm aff : Str}
    {em : Option Str} (he : authorExtract kvs = .ok (nm, aff, em)) :
    authorEmailTot (.d kvs) = em := by
  simp [authorEmailTot, authorEmail, he]

theorem guessTot_of_extract {kvs : List (Str × Val)} {nm aff : Str}
    {em : Option Str} (he : authorExtract kvs = .ok (nm, aff, em)) :
    guessTot (.d kvs)
      = (if (is_non_academic aff em).1 then (is_non_academic aff em).2 else none) := by
  simp [guessTot, he]

theorem stepAuthor_ok_has {st st2 : LoopSt} {a : Val}
    (h : stepAuthor st a = .ok st2) :
    (st2.has = true ↔ st.has = true ∨ authorNA a = .ok true) := by
  cases a with
  | s cs =>
    unfold stepAuthor at h
    cases h
    simp [authorNA]
  | l vs =>
    unfold stepAuthor at h
    cases h
    simp [authorNA]
  | d kvs =>
    obtain ⟨nm, aff, em, he, hst⟩ := stepAuthor_dict_ok h
    subst hst
    rw [applyAuthor_has]
    simp [authorNA, he, Bool.or_eq_true, or_comm]

theorem stepAuthor_ok_corr {st st2 : LoopSt} {a : Val}
    (h : stepAuthor st a = .ok st2) :
    st2.corrEmail =
      (if optTruthy (authorEmailTot a) && !optTruthy st.corrEmail
       then authorEmailTot a else st.corrEmail) := by
  cases a with
  | s cs =>
    unfold stepAuthor at h
    cases h
    simp [authorEmailTot, authorEmail, optTruthy]
  | l vs =>
    unfold stepAuthor at h
    cases h
    simp [authorEmailTot, authorEmail, optTruthy]
  | d kvs =>
    obtain ⟨nm, aff, em, he, hst⟩ := stepAuthor_dict_ok h
    subst hst
    rw [applyAuthor_corrEmail, authorEmailTot_of_extract he]

theorem stepAuthor_ok_companies {st st2 : LoopSt} {a : Val}
    (h : stepAuthor st a = .ok st2) :
    st2.companies =
      (match guessTot a with
       | some c => if !c.isEmpty && !st.companies.contains c
                   then st.companies ++ [c] else st.companies
       | none => st.companies) := by
  cases a with
  | s cs =>
    unfold stepAuthor at h
    cases h
    simp [guessTot]
  | l vs =>
    unfold stepAuthor at h
    cases h
    simp [guessTot]
  | d kvs =>
    obtain ⟨nm, aff, em, he, hst⟩ := stepAuthor_dict_ok h
    subst hst
    rw [applyAuthor_companies, guessTot_of_extract he]

theorem authLoop_has {as : List Val} {st st2 : LoopSt}
    (h : authLoop as st = .ok st2) :
    (st2.has = true ↔ st.has = true ∨ ∃ a ∈ as, authorNA a = .ok true) := by
  induction as generalizing st with
  | nil =>
    unfold authLoop at h
    cases h
    simp
  | cons a as ih =>
    rw [authLoop] at h
    cases hs : stepAuthor st a with
    | error e => rw [hs] at h; cases h
    | ok st1 =>
      rw [hs] at h
      rw [ih h, stepAuthor_ok_has hs, List.exists_mem_cons_iff]
      tauto

theorem authLoop_corrEmail {as : List Val} {st st2 : LoopSt}
    (h : authLoop as st = .ok st2)
    (hg : st.corrEmail = none ∨ optTruthy st.corrEmail = true) :
    st2.corrEmail =
      (match st.corrEmail with
       | some e => some e
       | none => firstNonemptyEmail as) := by
  induction as generalizing st with
  | nil =>
    unfold authLoop at h
    cases h
    cases st2.corrEmail <;> simp [firstNonemptyEmail]
  | cons a as ih =>
    rw [authLoop] at h
    cases hs : stepAuthor st a with
    | error e => rw [hs] at h; cases h
    | ok st1 =>
      rw [hs] at h
      have hcorr := stepAuthor_ok_corr hs
      rcases hg with hg | hg
      · cases hemt : authorEmailTot a with
        | none =>
          have hc1 : st1.corrEmail = none := by
            rw [hcorr, hemt, hg]; simp [optTruthy]
          have h2 := ih h (Or.inl hc1)
          rw [hc1] at h2
          rw [hg]
          simp only [firstNonemptyEmail, hemt]
          simpa using h2
        | some e =>
          by_cases hne : e.isEmpty
          · have hc1 : st1.corrEmail = none := by
              rw [hcorr, hemt, hg]; simp [optTruthy, hne]
            have h2 := ih h (Or.inl hc1)
            rw [hc1] at h2
            rw [hg]
            simp only [firstNonemptyEmail, hemt]
            rw [if_pos hne]
            simpa using h2
          · have hc1 : st1.corrEmail = some e := by
              rw [hcorr, hemt, hg]; simp [optTruthy, hne]
            have h2 := ih h (Or.inr (by rw [hc1]; simp [optTruthy, hne]))
            rw [hc1] at h2
            rw [hg]
            simp only [firstNonemptyEmail, hemt]
            rw [if_neg hne]
            simpa using h2
      · cases hst : st.corrEmail with
        | none => rw [hst] at hg; simp [optTruthy] at hg
        | some e =>
          rw [hst] at hg
          have hc1 : st1.corrEmail = some e := by
            rw [hcorr, hst, hg]; simp
          have h2 := ih h (Or.inr (by rw [hc1]; exact hg))
          rw [hc1] at h2
          simpa using h2

theorem authLoop_companies {as : List Val} {st st2 : LoopSt}
    (h : authLoop as st = .ok st2) :
    st2.companies =
      (as.map guessTot).foldl
        (fun acc g =>
          match g with
          | some c => if !c.isEmpty && !acc.contains c then acc ++ [c] else acc
          | none => acc) st.companies := by
  induction as generalizing st with
  | nil =>
    unfold authLoop at h
    cases h
    simp
  | cons a as ih =>
    rw [authLoop] at h
    cases hs : stepAuthor st a with
    | error e => rw [hs] at h; cases h
    | ok st1 =>
      rw [hs] at h
      rw [List.map_cons, List.foldl_cons, ← stepAuthor_ok_companies hs]
      exact ih h

/-! Every extracted email token holds an `@`. -/

theorem affilEmailStep_at {t : Val} {em0 em2 : Option Str}
    (h : affilEmailStep t em0 = .ok em2) :
    em2 = em0 ∨ ∃ e, em2 = some e ∧ '@' ∈ e := by
  unfold affilEmailStep at h
  by_cases hat : pyHasAt t
  · rw [if_pos hat] at h
    cases t with
    | s cs =>
      simp only [asStr] at h
      cases hf : (splitWs cs).find? (fun w => strContains w ['@']) with
      | some w =>
        rw [hf] at h
        refine Or.inr ⟨stripPunct w, (Except.ok.inj h).symm, ?_⟩
        have hw : strContains w ['@'] = true := by
          have := List.find?_some hf
          simpa using this
        exact at_mem_stripPunct (strContains_mem hw)
      | none =>
        rw [hf] at h
        exact Or.inl (Except.ok.inj h).symm
    | l vs => simp [asStr] at h
    | d kvs => simp [asStr] at h
  · rw [if_neg hat] at h
    exact Or.inl (Except.ok.inj h).symm

theorem affilLoop_email_at {infos : List Val} {em0 : Option Str}
    {ts : List Val} {em : Option Str}
    (h : affilLoop infos em0 = .ok (ts, em)) :
    em = em0 ∨ ∃ e, em = some e ∧ '@' ∈ e := by
  induction infos generalizing em0 ts with
  | nil =>
    unfold affilLoop at h
    cases h
    exact Or.inl rfl
  | cons affil rest ih =>
    cases affil with
    | s cs => exact ih h
    | l vs => exact ih h
    | d kvs =>
      rw [affilLoop] at h
      split at h
      · exact absurd h (by simp)
      · rename_i em2 hstep
        split at h
        · exact absurd h (by simp)
        · rename_i ts2 emf hrest
          rw [Except.ok.injEq, Prod.mk.injEq] at h
          obtain ⟨hts, hem⟩ := h
          subst hem
          rcases ih hrest with h1 | h1
          · subst h1
            exact affilEmailStep_at hstep
          · exact Or.inr h1

theorem authorExtract_email_at {kvs : List (Str × Val)} {nm aff : Str} {e : Str}
    (h : authorExtract kvs = .ok (nm, aff, some e)) : '@' ∈ e := by
  unfold authorExtract at h
  dsimp only at h
  split at h
  · rw [Except.ok.injEq, Prod.mk.injEq, Prod.mk.injEq] at h
    exact absurd h.2.2 (by simp)
  · split at h
    · exact absurd h (by simp)
    · rename_i ts em hal
      split at h
      · exact absurd h (by simp)
      · rw [Except.ok.injEq, Prod.mk.injEq, Prod.mk.injEq] at h
        obtain ⟨-, -, hem⟩ := h
        rw [hem] at hal
        rcases affilLoop_email_at hal with h1 | h1
        · cases h1
        · obtain ⟨e2, he2, hat⟩ := h1
          cases he2
          exact hat

theorem authorEmailTot_at {a : Val} {e : Str}
    (h : authorEmailTot a = some e) : '@' ∈ e := by
  cases a with
  | s cs => simp [authorEmailTot, authorEmail] at h
  | l vs => simp [authorEmailTot, authorEmail] at h
  | d kvs =>
    simp only [authorEmailTot, authorEmail] at h
    cases he : authorExtract kvs with
    | error er => rw [he] at h; simp at h
    | ok t =>
      obtain ⟨nm, aff, em⟩ := t
      rw [he] at h
      change em = some e at h
      rw [h] at he
      exact authorExtract_email_at he

theorem authorEmailTot_nonempty {a : Val} {e : Str}
    (h : authorEmailTot a = some e) : e.isEmpty = false := by
  have := authorEmailTot_at h
  cases e with
  | nil => cases this
  | cons c cs => rfl

/-! The first non-empty email over the author list. -/

theorem firstNonemptyEmail_eq_some {as : List Val} {e : Str}
    (h : firstNonemptyEmail as = some e) :
    ∃ a ∈ as, authorEmailTot a = some e := by
  induction as with
  | nil => cases h
  | cons a as ih =>
    rw [firstNonemptyEmail] at h
    cases hemt : authorEmailTot a with
    | none =>
      rw [hemt] at h
      obtain ⟨a2, ha2, he2⟩ := ih h
      exact ⟨a2, List.mem_cons_of_mem a ha2, he2⟩
    | some e2 =>
      rw [hemt] at h
      change (if e2.isEmpty = true then firstNonemptyEmail as else some e2) = some e at h
      by_cases hne : e2.isEmpty = true
      · rw [if_pos hne] at h
        obtain ⟨a2, ha2, he2⟩ := ih h
        exact ⟨a2, List.mem_cons_of_mem a ha2, he2⟩
      · rw [if_neg hne] at h
        exact ⟨a, List.mem_cons_self a as, hemt.trans h⟩

theorem firstNonemptyEmail_none_iff (as : List Val) :
    firstNonemptyEmail as = none ↔ ∀ a ∈ as, authorEmailTot a = none := by
  induction as with
  | nil => simp [firstNonemptyEmail]
  | cons a as ih =>
    rw [firstNonemptyEmail]
    cases hemt : authorEmailTot a with
    | none => simp [hemt, ih]
    | some e =>
      change ((if e.isEmpty = true then firstNonemptyEmail as else some e) = none ↔ _)
      rw [authorEmailTot_nonempty hemt]
      simp only [Bool.false_eq_true, if_false]
      constructor
      · intro h; cases h
      · intro h
        have := h a (List.mem_cons_self a as)
        rw [hemt] at this
        cases this

/-! Decomposition of the per-paper state. -/

theorem paperState_ok {p : Val} {ps : PaperSt} (h : paperState p = .ok ps) :
    paperMeta p = .ok ps.fields ∧ authLoop ps.fields.authors initLoopSt = .ok ps.st := by
  unfold paperState at h
  split at h
  · exact absurd h (by simp)
  · rename_i f hm
    split at h
    · exact absurd h (by simp)
    · rename_i st hl
      have := Except.ok.inj h
      subst this
      exact ⟨hm, hl⟩

/-- Shared concrete instances: the sample company paper and its state. -/
def pGen : Val := samplePaper (Val.l [authGen])

/-- The per-paper state of a record, with a dummy fallback on error. -/
def psOf (p : Val) : PaperSt :=
  (paperState p).toOption.getD ⟨⟨Val.s [], Val.s [], [], []⟩, initLoopSt⟩

/-- The state of the sample company paper. -/
def psGen : PaperSt := psOf pGen

/-! Claim C1: emission iff a non-academic author. -/

/-- C1 (amended): a paper with zero non-academic authors is never emitted,
and a paper whose try-block processing succeeds is emitted iff at least one
of its authors is classified non-academic; a paper whose processing raises
is dropped even when a non-academic author was already found. -/
theorem c1_amended (p : Val) (ps : PaperSt) (h : paperState p = .ok ps) :
    (∃ r, tryPaper p = .ok (some r)) ↔
      ∃ a ∈ ps.fields.authors, authorNA a = .ok true := by
  obtain ⟨hm, hl⟩ := paperState_ok h
  have hhas := authLoop_has hl
  have htp : tryPaper p = .ok (if ps.st.has = true then some (mkRow ps) else none) := by
    unfold tryPaper
    rw [h]
  rw [htp]
  by_cases hb : ps.st.has = true
  · rw [if_pos hb]
    constructor
    · intro _
      rcases hhas.mp hb with h1 | h1
      · simp [initLoopSt] at h1
      · exact h1
    · intro _
      exact ⟨mkRow ps, rfl⟩
  · rw [if_neg hb]
    constructor
    · rintro ⟨r, hr⟩
      simp at hr
    · intro hex
      exact absurd (hhas.mpr (Or.inr hex)) hb

/-- C1 (counterexample): this paper's author list holds the non-academic
author `authGen` followed by `authRaise`, whose processing raises, so no
summary is emitted although an author was classified non-academic. -/
theorem c1_counterexample :
    authorNA authGen = .ok true
    ∧ (paperMeta (samplePaper (Val.l [authGen, authRaise]))).map PaperFields.authors
        = .ok [authGen, authRaise]
    ∧ process_papers [samplePaper (Val.l [authGen, authRaise])] = .ok [] :=
  ⟨rfl, rfl, rfl⟩

/-- Witness for C1 at the sample company paper. -/
theorem c1_witness :
    (∃ r, tryPaper pGen = .ok (some r)) ↔
      ∃ a ∈ psGen.fields.authors, authorNA a = .ok true :=
  c1_amended pGen psGen rfl

/-! Claim C5: the corresponding email field. -/

/-- C5 (claim): the Corresponding Author Email field of an emitted row is
the first non-empty email in author-list order, independent of each author's
classification and never overridden, and it is the literal "N/A" iff no
author on the paper has an extractable email. -/
theorem c5_corresponding_email (p : Val) (ps : PaperSt)
    (h : paperState p = .ok ps) :
    ((mkRow ps).correspondingEmail =
      (match firstNonemptyEmail ps.fields.authors with
       | some e => e
       | none => NA_STR))
    ∧ ((mkRow ps).correspondingEmail = NA_STR ↔
       ∀ a ∈ ps.fields.authors, authorEmailTot a = none) := by
  obtain ⟨hm, hl⟩ := paperState_ok h
  have hcorr := authLoop_corrEmail hl (Or.inl rfl)
  change ps.st.corrEmail = firstNonemptyEmail ps.fields.authors at hcorr
  cases hfe : firstNonemptyEmail ps.fields.authors with
  | none =>
    have hce : ps.st.corrEmail = none := by rw [hcorr, hfe]
    have hrow : (mkRow ps).correspondingEmail = NA_STR := by
      simp only [mkRow]
      rw [hce]
    refine ⟨by rw [hrow], ?_⟩
    rw [hrow]
    exact ⟨fun _ => (firstNonemptyEmail_none_iff _).mp hfe, fun _ => rfl⟩
  | some e =>
    obtain ⟨a0, ha0, hae0⟩ := firstNonemptyEmail_eq_some hfe
    have hne : e.isEmpty = false := authorEmailTot_nonempty hae0
    have hat : '@' ∈ e := authorEmailTot_at hae0
    have hce : ps.st.corrEmail = some e := by rw [hcorr, hfe]
    have hrow : (mkRow ps).correspondingEmail = e := by
      simp only [mkRow]
      rw [hce]
      simp [hne]
    refine ⟨by rw [hrow], ?_⟩
    rw [hrow]
    constructor
    · intro hEq
      exfalso
      rw [hEq] at hat
      revert hat
      decide
    · intro hall
      exfalso
      rw [(firstNonemptyEmail_none_iff _).mpr hall] at hfe
      cases hfe

/-- Witness for C5 at the sample company paper. -/
theorem c5_witness :
    ((mkRow psGen).correspondingEmail =
      (match firstNonemptyEmail psGen.fields.authors with
       | some e => e
       | none => NA_STR))
    ∧ ((mkRow psGen).correspondingEmail = NA_STR ↔
       ∀ a ∈ psGen.fields.authors, authorEmailTot a = none) :=
  c5_corresponding_email pGen psGen rfl

/-! Claim C8: the Company Affiliation(s) field. -/

theorem foldl_dedup_filter (gs : List (Option Str)) (acc : List Str) :
    gs.foldl
      (fun acc g =>
        match g with
        | some c => if !c.isEmpty && !acc.contains c then acc ++ [c] else acc
        | none => acc) acc
    = ((gs.filterMap id).filter (fun c => !c.isEmpty)).foldl
        (fun acc c => if acc.contains c then acc else acc ++ [c]) acc := by
  induction gs generalizing acc with
  | nil => rfl
  | cons g gs ih =>
    cases g with
    | none =>
      simp only [List.foldl_cons, List.filterMap_cons, id_eq]
      exact ih acc
    | some c =>
      simp only [List.foldl_cons, List.filterMap_cons, id_eq]
      by_cases hne : c.isEmpty
      · simp only [List.filter_cons, hne, Bool.not_true, Bool.false_and,
          Bool.false_eq_true, if_false]
        exact ih acc
      · have hne2 : (!c.isEmpty) = true := by simp [hne]
        simp only [List.filter_cons, hne2, if_true, List.foldl_cons, Bool.true_and]
        by_cases hc : acc.contains c
        · simp only [hc, Bool.not_true, Bool.false_eq_true, if_false, if_true]
          exact ih acc
        · have hc2 : acc.contains c = false := by simpa using hc
          simp only [hc2, Bool.not_false, if_true, Bool.false_eq_true, if_false]
          exact ih (acc ++ [c])

theorem foldl_dedup_nodup (cs : List Str) (acc : List Str) (h : acc.Nodup) :
    (cs.foldl (fun acc c => if acc.contains c then acc else acc ++ [c]) acc).Nodup := by
  induction cs generalizing acc with
  | nil => exact h
  | cons c cs ih =>
    rw [List.foldl_cons]
    by_cases hc : acc.contains c = true
    · rw [if_pos hc]
      exact ih acc h
    · rw [if_neg hc]
      refine ih _ ?_
      rw [List.nodup_append]
      refine ⟨h, List.nodup_singleton c, ?_⟩
      intro x hx hx2
      rw [List.mem_singleton] at hx2
      subst hx2
      exact hc ((contains_iff_mem_str acc x).mpr hx)

/-- C8 (amended): the company-affiliation list of an emitted row is the
first-seen-order deduplication of its non-academic authors' *non-empty*
organization guesses (an empty guess is dropped by the truthiness test of
line 195), it never holds duplicates, and the row field is its "; "-join. -/
theorem c8_amended (p : Val) (ps : PaperSt) (h : paperState p = .ok ps) :
    ps.st.companies =
      firstSeenDedup
        ((ps.fields.authors.filterMap guessTot).filter (fun c => !c.isEmpty))
    ∧ ps.st.companies.Nodup
    ∧ (mkRow ps).companyAffiliations = joinSep "; ".toList ps.st.companies := by
  obtain ⟨hm, hl⟩ := paperState_ok h
  have hco := authLoop_companies hl
  simp only [initLoopSt] at hco
  rw [foldl_dedup_filter, List.filterMap_map, Function.id_comp] at hco
  refine ⟨hco, ?_, rfl⟩
  rw [hco]
  exact foldl_dedup_nodup _ [] List.nodup_nil

/-- C8 (counterexample): the author with affiliation `",inc"` is classified
non-academic with the empty organization guess, yet the emitted company list
is empty — the field does not list that author's guess. -/
theorem c8_counterexample :
    paperState (samplePaper (Val.l [authEmptyGuess]))
      = .ok (psOf (samplePaper (Val.l [authEmptyGuess])))
    ∧ authorNA authEmptyGuess = .ok true
    ∧ guessTot authEmptyGuess = some []
    ∧ (psOf (samplePaper (Val.l [authEmptyGuess]))).st.has = true
    ∧ (psOf (samplePaper (Val.l [authEmptyGuess]))).st.companies = []
    ∧ firstSeenDedup
        ((psOf (samplePaper (Val.l [authEmptyGuess]))).fields.authors.filterMap guessTot)
        = [[]]
    ∧ ([] : List Str) ≠ [[]] :=
  ⟨rfl, rfl, rfl, rfl, rfl, rfl, by decide⟩

/-- Witness for C8 at the sample company paper. -/
theorem c8_witness :
    psGen.st.companies =
      firstSeenDedup
        ((psGen.fields.authors.filterMap guessTot).filter (fun c => !c.isEmpty))
    ∧ psGen.st.companies.Nodup
    ∧ (mkRow psGen).companyAffiliations = joinSep "; ".toList psGen.st.companies :=
  c8_amended pGen psGen rfl

/-! Claim C3: email extraction across an author's affiliation fields. -/

theorem affilEmailStep_emailOfInfo {kvs : List (Str × Val)} {em0 em2 : Option Str}
    (h : affilEmailStep (lookupD kvs "Affiliation".toList (Val.s [])) em0 = .ok em2) :
    em2 = (match emailOfInfo (Val.d kvs) with
           | some e => some e
           | none => em0) := by
  unfold affilEmailStep at h
  simp only [emailOfInfo]
  cases ht : lookupD kvs "Affiliation".toList (Val.s []) with
  | s cs =>
    rw [ht] at h
    by_cases hat : strContains cs ['@'] = true
    · have hat2 : pyHasAt (Val.s cs) = true := hat
      rw [if_pos hat2] at h
      simp only [asStr] at h
      cases hf : (splitWs cs).find? (fun w => strContains w ['@']) with
      | some w =>
        rw [hf] at h
        simp only [hat, if_true, hf]
        exact (Except.ok.inj h).symm
      | none =>
        rw [hf] at h
        simp only [hat, if_true, hf]
        exact (Except.ok.inj h).symm
    · have hat2 : ¬(pyHasAt (Val.s cs) = true) := hat
      rw [if_neg hat2] at h
      simp only [if_neg hat]
      exact (Except.ok.inj h).symm
  | l vs =>
    rw [ht] at h
    by_cases hat : pyHasAt (Val.l vs) = true
    · rw [if_pos hat] at h
      simp [asStr] at h
    · rw [if_neg hat] at h
      exact (Except.ok.inj h).symm
  | d kvs2 =>
    rw [ht] at h
    by_cases hat : pyHasAt (Val.d kvs2) = true
    · rw [if_pos hat] at h
      simp [asStr] at h
    · rw [if_neg hat] at h
      exact (Except.ok.inj h).symm

/-- C3 (amended): the email an author's loop extracts is obtained by a
last-wins fold over the affiliation entries: each entry whose text holds an
`@` overwrites the email with its own first whitespace-delimited `@`-token
(stripped of the punctuation `().,;` at both ends), so an email found in a
later affiliation field replaces one found earlier. -/
theorem c3_amended (infos : List Val) (em0 : Option Str) (ts : List Val)
    (em : Option Str) (h : affilLoop infos em0 = .ok (ts, em)) :
    em = infos.foldl
      (fun acc v =>
        match emailOfInfo v with
        | some e => some e
        | none => acc) em0 := by
  induction infos generalizing em0 ts with
  | nil =>
    unfold affilLoop at h
    cases h
    rfl
  | cons affil rest ih =>
    cases affil with
    | s cs => exact ih em0 ts h
    | l vs => exact ih em0 ts h
    | d kvs =>
      rw [affilLoop] at h
      split at h
      · exact absurd h (by simp)
      · rename_i em2 hstep
        split at h
        · exact absurd h (by simp)
        · rename_i ts2 emf hrest
          rw [Except.ok.injEq, Prod.mk.injEq] at h
          obtain ⟨-, hem⟩ := h
          subst hem
          rw [List.foldl_cons, ← affilEmailStep_emailOfInfo hstep]
          exact ih em2 ts2 hrest

/-- Two affiliation entries, each with an email token. -/
def infoA : Val := Val.d [("Affiliation".toList, Val.s "Lab A a@x B".toList)]

/-- Second affiliation entry, with a different email token. -/
def infoB : Val := Val.d [("Affiliation".toList, Val.s "Lab C b@y D".toList)]

/-- C3 (counterexample): for an author with two affiliation fields that each
hold an email, the extracted email is the second field's token `b@y`, not
the first field's `a@x` — a later field's email replaces the earlier one. -/
theorem c3_counterexample :
    emailOfInfo infoA = some "a@x".toList
    ∧ affilLoop [infoA, infoB] none
        = .ok ([Val.s "Lab A a@x B".toList, Val.s "Lab C b@y D".toList],
               some "b@y".toList)
    ∧ (some "b@y".toList : Option Str) ≠ some "a@x".toList :=
  ⟨rfl, rfl, by decide⟩

/-- Witness for C3 at the two-entry affiliation list. -/
theorem c3_witness :
    (some "b@y".toList : Option Str)
      = List.foldl
          (fun acc v =>
            match emailOfInfo v with
            | some e => some e
            | none => acc) none [infoA, infoB] :=
  c3_amended [infoA, infoB] none
    [Val.s "Lab A a@x B".toList, Val.s "Lab C b@y D".toList]
    (some "b@y".toList) rfl

/-! Claim C4: the publication-date format. -/

/-- Stripping trailing dashes only. -/
def stripRD (l : Str) : Str := (l.reverse.dropWhile (fun c => c == '-')).reverse

theorem stripDash_eq_stripRD (l : Str) :
    stripDash l = stripRD (l.dropWhile (fun c => c == '-')) := rfl

theorem dropDash_all (l : Str) (h : '-' ∉ l) :
    l.dropWhile (fun c => c == '-') = l := by
  cases l with
  | nil => rfl
  | cons a t =>
    rw [List.dropWhile_cons]
    have ha : (a == '-') = false := beq_eq_false_iff_ne.mpr
      (fun hEq => h (hEq ▸ List.mem_cons_self a t))
    rw [ha]
    simp

theorem dropDash_append (l r : Str) (h : '-' ∉ l) (hne : l ≠ []) :
    (l ++ r).dropWhile (fun c => c == '-') = l ++ r := by
  cases l with
  | nil => exact absurd rfl hne
  | cons a t =>
    rw [List.cons_append, List.dropWhile_cons]
    have ha : (a == '-') = false := beq_eq_false_iff_ne.mpr
      (fun hEq => h (hEq ▸ List.mem_cons_self a t))
    rw [ha]
    simp

theorem dropDash_cons_dash (l : Str) :
    ('-' :: l).dropWhile (fun c => c == '-') = l.dropWhile (fun c => c == '-') := by
  rw [List.dropWhile_cons]
  simp

theorem stripRD_snoc (z : Str) (c : Char) (hc : (c == '-') = false) :
    stripRD (z ++ [c]) = z ++ [c] := by
  unfold stripRD
  rw [List.reverse_append]
  simp only [List.reverse_cons, List.reverse_nil, List.nil_append, List.singleton_append]
  rw [List.dropWhile_cons, hc]
  simp

theorem stripRD_concat_dash (z : Str) : stripRD (z ++ ['-']) = stripRD z := by
  unfold stripRD
  rw [List.reverse_append]
  simp only [List.reverse_cons, List.reverse_nil, List.nil_append, List.singleton_append]
  rw [List.dropWhile_cons]
  simp

theorem stripRD_all (l : Str) (h : '-' ∉ l) : stripRD l = l := by
  unfold stripRD
  rw [dropDash_all l.reverse (fun hmem => h (List.mem_reverse.mp hmem)),
    List.reverse_reverse]

/-- C4 (amended): characterization of `formatDate` for dash-free components.
Leading or trailing missing components are omitted along with their
separators, but a missing month between a present year and day leaves an
empty slot, producing the double separator `--` that the original claim
rules out. -/
theorem c4_amended (y m d : Str) (hy : '-' ∉ y) (hm : '-' ∉ m) (hd : '-' ∉ d) :
    (y ≠ [] → m ≠ [] → d ≠ [] → formatDate y m d = y ++ '-' :: m ++ '-' :: d)
    ∧ (y ≠ [] → m ≠ [] → formatDate y m [] = y ++ '-' :: m)
    ∧ (m ≠ [] → d ≠ [] → formatDate [] m d = m ++ '-' :: d)
    ∧ (y ≠ [] → d ≠ [] → formatDate y [] d = y ++ '-' :: '-' :: d)
    ∧ (formatDate y [] [] = y)
    ∧ (formatDate [] m [] = m)
    ∧ (formatDate [] [] d = d) := by
  refine ⟨?_, ?_, ?_, ?_, ?_, ?_, ?_⟩
  · intro hy0 hm0 hd0
    rcases List.eq_nil_or_concat d with rfl | ⟨ds, c, rfl⟩
    · exact absurd rfl hd0
    · simp only [List.concat_eq_append] at hd ⊢
      have hc : (c == '-') = false := beq_eq_false_iff_ne.mpr
        (fun hEq => hd (hEq ▸ (by simp : c ∈ ds ++ [c])))
      unfold formatDate
      rw [stripDash_eq_stripRD]
      rw [show ((y ++ '-' :: m) ++ '-' :: (ds ++ [c]) : Str)
            = y ++ ('-' :: m ++ '-' :: (ds ++ [c])) from by simp]
      rw [dropDash_append y ('-' :: m ++ '-' :: (ds ++ [c])) hy hy0]
      rw [show (y ++ ('-' :: m ++ '-' :: (ds ++ [c])) : Str)
            = (y ++ ('-' :: m ++ '-' :: ds)) ++ [c] from by simp]
      rw [stripRD_snoc _ c hc]
  · intro hy0 hm0
    rcases List.eq_nil_or_concat m with rfl | ⟨ms, c, rfl⟩
    · exact absurd rfl hm0
    · simp only [List.concat_eq_append] at hm ⊢
      have hc : (c == '-') = false := beq_eq_false_iff_ne.mpr
        (fun hEq => hm (hEq ▸ (by simp : c ∈ ms ++ [c])))
      unfold formatDate
      rw [stripDash_eq_stripRD]
      rw [show ((y ++ '-' :: (ms ++ [c])) ++ '-' :: ([] : Str) : Str)
            = y ++ ('-' :: (ms ++ [c]) ++ ['-']) from by simp]
      rw [dropDash_append y ('-' :: (ms ++ [c]) ++ ['-']) hy hy0]
      rw [show (y ++ ('-' :: (ms ++ [c]) ++ ['-']) : Str)
            = (y ++ '-' :: (ms ++ [c])) ++ ['-'] from by simp]
      rw [stripRD_concat_dash]
      rw [show ((y ++ '-' :: (ms ++ [c])) : Str) = (y ++ '-' :: ms) ++ [c] from by simp]
      rw [stripRD_snoc _ c hc]
  · intro hm0 hd0
    rcases List.eq_nil_or_concat d with rfl | ⟨ds, c, rfl⟩
    · exact absurd rfl hd0
    · simp only [List.concat_eq_append] at hd ⊢
      have hc : (c == '-') = false := beq_eq_false_iff_ne.mpr
        (fun hEq => hd (hEq ▸ (by simp : c ∈ ds ++ [c])))
      unfold formatDate
      rw [stripDash_eq_stripRD]
      rw [show ((([] : Str) ++ '-' :: m) ++ '-' :: (ds ++ [c]) : Str)
            = '-' :: (m ++ '-' :: (ds ++ [c])) from by simp]
      rw [dropDash_cons_dash]
      rw [dropDash_append m ('-' :: (ds ++ [c])) hm hm0]
      rw [show (m ++ '-' :: (ds ++ [c]) : Str) = (m ++ '-' :: ds) ++ [c] from by simp]
      rw [stripRD_snoc _ c hc]
  · intro hy0 hd0
    rcases List.eq_nil_or_concat d with rfl | ⟨ds, c, rfl⟩
    · exact absurd rfl hd0
    · simp only [List.concat_eq_append] at hd ⊢
      have hc : (c == '-') = false := beq_eq_false_iff_ne.mpr
        (fun hEq => hd (hEq ▸ (by simp : c ∈ ds ++ [c])))
      unfold formatDate
      rw [stripDash_eq_stripRD]
      rw [show ((y ++ '-' :: ([] : Str)) ++ '-' :: (ds ++ [c]) : Str)
            = y ++ ('-' :: '-' :: (ds ++ [c])) from by simp]
      rw [dropDash_append y ('-' :: '-' :: (ds ++ [c])) hy hy0]
      rw [show (y ++ ('-' :: '-' :: (ds ++ [c])) : Str)
            = (y ++ '-' :: '-' :: ds) ++ [c] from by simp]
      rw [stripRD_snoc _ c hc]
  · rcases List.eq_nil_or_concat y with rfl | ⟨ys, c, rfl⟩
    · rfl
    · simp only [List.concat_eq_append] at hy ⊢
      unfold formatDate
      rw [stripDash_eq_stripRD]
      rw [show (((ys ++ [c]) ++ '-' :: ([] : Str)) ++ '-' :: ([] : Str) : Str)
            = (ys ++ [c]) ++ (['-'] ++ ['-']) from by simp]
      rw [dropDash_append (ys ++ [c]) (['-'] ++ ['-']) hy (by simp)]
      rw [show ((ys ++ [c]) ++ (['-'] ++ ['-']) : Str)
            = ((ys ++ [c]) ++ ['-']) ++ ['-'] from by simp]
      rw [stripRD_concat_dash, stripRD_concat_dash, stripRD_all (ys ++ [c]) hy]
  · rcases List.eq_nil_or_concat m with rfl | ⟨ms, c, rfl⟩
    · rfl
    · simp only [List.concat_eq_append] at hm ⊢
      unfold formatDate
      rw [stripDash_eq_stripRD]
      rw [show ((([] : Str) ++ '-' :: (ms ++ [c])) ++ '-' :: ([] : Str) : Str)
            = '-' :: ((ms ++ [c]) ++ ['-']) from by simp]
      rw [dropDash_cons_dash]
      rw [dropDash_append (ms ++ [c]) ['-'] hm (by simp)]
      rw [stripRD_concat_dash, stripRD_all (ms ++ [c]) hm]
  · unfold formatDate
    rw [stripDash_eq_stripRD]
    rw [show ((([] : Str) ++ '-' :: ([] : Str)) ++ '-' :: d : Str)
          = '-' :: '-' :: d from by simp]
    rw [dropDash_cons_dash, dropDash_cons_dash, dropDash_all d hd, stripRD_all d hd]

/-- C4 (counterexample): the sample paper has a year and a day but no month,
and its emitted Publication Date is `2020--05`, which holds the double
separator `--` the claim rules out. -/
theorem c4_counterexample :
    process_papers [pGen] = .ok [rowGen]
    ∧ rowGen.publicationDate = "2020--05".toList
    ∧ strContains rowGen.publicationDate "--".toList = true :=
  ⟨rfl, rfl, rfl⟩

/-- Witness for C4 at concrete date components. -/
theorem c4_witness :
    formatDate "2020".toList [] "05".toList
      = "2020".toList ++ '-' :: '-' :: "05".toList
    ∧ formatDate "2020".toList "06".toList "05".toList
      = "2020".toList ++ '-' :: "06".toList ++ '-' :: "05".toList
    ∧ formatDate "2020".toList [] [] = "2020".toList := by
  have h := c4_amended "2020".toList [] "05".toList (by decide) (by decide) (by decide)
  have h2 := c4_amended "2020".toList "06".toList "05".toList
    (by decide) (by decide) (by decide)
  exact ⟨h.2.2.2.1 (by decide) (by decide),
         h2.1 (by decide) (by decide) (by decide),
         h.2.2.2.2.1⟩

/-! Claim C7: the except handler can itself raise. -/

/-- C7: a paper whose `MedlineCitation` value is a string makes the try
block raise, and the except handler's own
`paper.get('MedlineCitation', {}).get('PMID', 'UNKNOWN')` then raises an
AttributeError of its own, so the exception escapes `process_papers` and
the remaining papers (here a paper that would be emitted) are lost. -/
theorem c7_handler_escape :
    process_papers [Val.d [("MedlineCitation".toList, Val.s "foo".toList)], pGen]
      = .error ()
    ∧ process_papers [pGen] = .ok [rowGen] :=
  ⟨rfl, rfl⟩

end GetPapers
